import Mathlib

/-!
Verification of the accelerometer windowing / feature-engineering / threshold
selection core of the RapidAid repository.

The definitions below are a shallow embedding of
`src/feature_engineering/accelerometer_feature_engineer.py`,
`src/model_training/accelerometer_accident_detector.py` and
`scripts/predict_accidents.py`.  Machine floats are modelled by `Rat`
(plus an explicit `FVal` wrapper where NaN / infinity propagation matters);
Python `range`, `np.argmax`, `np.where(...)[0]`, pandas column filtering and
the sliding-window loop are translated function by function.
-/

set_option autoImplicit false
set_option maxRecDepth 8000

namespace RapidAid

/-! ### Windowing (AccelerometerFeatureEngineer.transform, lines 120-143) -/

/-- List of the values of Python `range(0, stop, step)` for `step > 0`:
`[0, step, 2*step, ...]` while the value is `< stop`. -/
def pyRange (stop step : Nat) : List Nat :=
  (List.range ((stop + step - 1) / step)).map (fun k => k * step)

/-- Start offsets of the windows emitted for one vehicle group of length `L`:
the group is skipped (`continue`) when `L < window_size`, otherwise the code
runs `range(0, L - window_size + 1, step_size)`. -/
def windowStartIdxs (L W S : Nat) : List Nat :=
  if L < W then [] else pyRange (L - W + 1) S

/-- Python slice `group.iloc[start : start + W]` on a list. -/
def windowSlice {α : Type} (g : List α) (start W : Nat) : List α :=
  (g.drop start).take W

/-- Windows emitted for one vehicle group, paired with their
`window_index = start_idx // step_size` (line 137). -/
def groupWindows {α : Type} (g : List α) (W S : Nat) : List (Nat × List α) :=
  (windowStartIdxs g.length W S).map (fun s => (s / S, windowSlice g s W))

/-- Mean of a pandas Series of rationals (`.mean()` on a non-empty window). -/
def meanQ (l : List ℚ) : ℚ := l.sum / (l.length : ℚ)

/-- Window label, line 140: `int(window[label_col].any())` — 1 iff some
entry is non-zero. -/
def windowLabel (labels : List ℚ) : Nat :=
  if labels.any (fun x => x ≠ 0) then 1 else 0

/-- Step size chosen by `AccelerometerFeatureEngineer.__init__`, line 60:
`self.step_size = step_size or window_size // 2` (both `None` and `0` are
falsy in Python). -/
def initStepSize (window_size : Nat) (step_size : Option Nat) : Nat :=
  match step_size with
  | none => window_size / 2
  | some s => if s = 0 then window_size / 2 else s

/-- Constructor `AccelerometerFeatureEngineer.__init__`, lines 56-61:
raises `ValueError` iff `window_size <= 0`, otherwise records
`(window_size, step_size)`. -/
def initEngineer (window_size : Nat) (step_size : Option Nat) :
    Except String (Nat × Nat) :=
  if window_size = 0 then Except.error "window_size must be positive"
  else Except.ok (window_size, initStepSize window_size step_size)

/-! ### Basic facts about the window layout -/

theorem pyRange_length (stop step : Nat) :
    (pyRange stop step).length = (stop + step - 1) / step := by
  simp [pyRange]

theorem pyRange_getD (stop step k : Nat) (hk : k < (pyRange stop step).length) :
    (pyRange stop step).getD k 0 = k * step := by
  simp only [pyRange, List.length_map, List.length_range] at hk
  simp [pyRange, List.getD, List.getElem?_map, List.getElem?_range, hk]

theorem windowStartIdxs_length (L W S : Nat) (hW : W ≤ L) (hS : 0 < S) :
    (windowStartIdxs L W S).length = (L - W) / S + 1 := by
  have hnlt : ¬ L < W := Nat.not_lt.mpr hW
  have h1 : L - W + 1 + S - 1 = L - W + S := by omega
  rw [windowStartIdxs, if_neg hnlt, pyRange_length, h1, Nat.add_div_right _ hS]

theorem windowStartIdxs_getD (L W S k : Nat) (hW : W ≤ L)
    (hk : k < (windowStartIdxs L W S).length) :
    (windowStartIdxs L W S).getD k 0 = k * S := by
  have hnlt : ¬ L < W := Nat.not_lt.mpr hW
  rw [windowStartIdxs, if_neg hnlt] at hk ⊢
  exact pyRange_getD _ _ _ hk

theorem windowStartIdxs_short (L W S : Nat) (h : L < W) :
    windowStartIdxs L W S = [] := by
  simp [windowStartIdxs, h]

theorem windowSlice_length {α : Type} (g : List α) (s W : Nat)
    (h : s + W ≤ g.length) : (windowSlice g s W).length = W := by
  simp [windowSlice]
  omega

theorem start_add_window_le (L W S k : Nat) (hW : W ≤ L) (hS : 0 < S)
    (hk : k < (windowStartIdxs L W S).length) : k * S + W ≤ L := by
  rw [windowStartIdxs_length L W S hW hS] at hk
  have h1 : k ≤ (L - W) / S := Nat.lt_succ_iff.mp hk
  have h2 : k * S ≤ (L - W) / S * S := Nat.mul_le_mul_right S h1
  have h3 : (L - W) / S * S ≤ L - W := Nat.div_mul_le_self _ _
  omega

theorem groupWindows_length {α : Type} (g : List α) (W S : Nat)
    (hW : W ≤ g.length) (hS : 0 < S) :
    (groupWindows g W S).length = (g.length - W) / S + 1 := by
  rw [groupWindows, List.length_map, windowStartIdxs_length _ _ _ hW hS]

theorem groupWindows_getD {α : Type} (g : List α) (W S k : Nat)
    (hW : W ≤ g.length) (hS : 0 < S)
    (hk : k < (groupWindows g W S).length) :
    (groupWindows g W S).getD k (0, []) = (k, windowSlice g (k * S) W) := by
  rw [groupWindows, List.length_map] at hk
  have hstart : (windowStartIdxs g.length W S).getD k 0 = k * S :=
    windowStartIdxs_getD _ _ _ _ hW hk
  have helem : (windowStartIdxs g.length W S)[k] = k * S := by
    have h' := hstart
    rwa [List.getD_eq_getElem _ _ hk] at h'
  have hget : (windowStartIdxs g.length W S)[k]? = some (k * S) := by
    rw [List.getElem?_eq_getElem hk, helem]
  simp [groupWindows, List.getD, List.get?_eq_getElem?, List.getElem?_map, hget,
    Nat.mul_div_cancel _ hS]

/-! ### Claim C1 -/

/-- C1: a per-vehicle group of length `L` processed with `window_size = W > 0`
and `step_size = S > 0` yields, when `L ≥ W`, exactly `(L - W) / S + 1`
windows whose start offsets are `0, S, 2S, ...`, each of exactly `W` samples
and with `window_index = offset / S`; when `L < W` the group yields zero
windows (a `continue`, not an error).  In particular a 250-sample group with
`W = 100`, `S = 50` yields 4 windows with indices `0..3` and starts
`0, 50, 100, 150`. -/
theorem transform_windowing_c1 (g : List Nat) (W S : Nat) (hW : 0 < W)
    (hS : 0 < S) :
    (W ≤ g.length →
      (groupWindows g W S).length = (g.length - W) / S + 1 ∧
      (∀ k, k < (groupWindows g W S).length →
        (groupWindows g W S).getD k (0, []) = (k, windowSlice g (k * S) W) ∧
        (windowSlice g (k * S) W).length = W)) ∧
    (g.length < W → groupWindows g W S = []) ∧
    (windowStartIdxs 250 100 50 = [0, 50, 100, 150] ∧
      (groupWindows (List.range 250) 100 50).map Prod.fst = [0, 1, 2, 3] ∧
      ∀ p ∈ groupWindows (List.range 250) 100 50, p.2.length = 100) := by
  refine ⟨fun hWL => ⟨groupWindows_length g W S hWL hS, fun k hk => ?_⟩,
    fun hshort => ?_, by decide, by decide, by decide⟩
  · have hk' : k < (windowStartIdxs g.length W S).length := by
      rw [groupWindows, List.length_map] at hk
      exact hk
    refine ⟨groupWindows_getD g W S k hWL hS hk, ?_⟩
    exact windowSlice_length g _ _ (start_add_window_le _ _ _ _ hWL hS hk')
  · simp [groupWindows, windowStartIdxs_short _ _ _ hshort]

/-- Witness for C1: the general statement applied to the concrete 250-sample
single-vehicle stream with `window_size = 100`, `step_size = 50`. -/
theorem transform_windowing_c1_witness :
    (groupWindows (List.range 250) 100 50).length = (250 - 100) / 50 + 1 ∧
      (groupWindows (List.range 250) 100 50).getD 3 (0, []) =
        (3, windowSlice (List.range 250) 150 100) :=
  ⟨((transform_windowing_c1 (List.range 250) 100 50 (by decide)
      (by decide)).1 (by simp)).1,
    (((transform_windowing_c1 (List.range 250) 100 50 (by decide)
      (by decide)).1 (by simp)).2 3 (by decide)).1⟩

/-! ### Claim C10 -/

/-- C10: constructing the engineer with `step_size = 0` raises no error; the
falsy `0` is silently replaced by `window_size // 2`, exactly as if
`step_size = None` had been passed, so for every `window_size ≥ 2` the
engineer with `step_size = 0` produces the same windows as the one with the
default hop. -/
theorem init_step_size_zero_c10 (W : Nat) (hW : 2 ≤ W) :
    initEngineer W (some 0) = Except.ok (W, W / 2) ∧
    initEngineer W (some 0) = initEngineer W none ∧
    ∀ g : List Nat,
      groupWindows g W (initStepSize W (some 0)) =
        groupWindows g W (initStepSize W none) := by
  have hne : W ≠ 0 := by omega
  exact ⟨by simp [initEngineer, initStepSize, hne],
    by simp [initEngineer, initStepSize, hne], fun g => rfl⟩

/-- Witness for C10: the statement at `window_size = 5`, `step size 0`,
on a concrete 7-sample group. -/
theorem init_step_size_zero_c10_witness :
    initEngineer 5 (some 0) = Except.ok (5, 2) ∧
    groupWindows [3, 1, 4, 1, 5, 9, 2] 5 (initStepSize 5 (some 0)) =
      groupWindows [3, 1, 4, 1, 5, 9, 2] 5 (initStepSize 5 none) :=
  ⟨(init_step_size_zero_c10 5 (by decide)).1,
    (init_step_size_zero_c10 5 (by decide)).2.2 [3, 1, 4, 1, 5, 9, 2]⟩

/-! ### Claim C5 : window label and positive ratio -/

theorem sum_of_zero_one (l : List ℚ) (h : ∀ x ∈ l, x = 0 ∨ x = 1) :
    l.sum = ((l.filter (fun x => x = 1)).length : ℚ) := by
  induction l with
  | nil => simp
  | cons a t ih =>
    have ha := h a (List.mem_cons_self a t)
    have ht := ih (fun x hx => h x (List.mem_cons_of_mem a hx))
    rcases ha with h0 | h1
    · subst h0
      simp [List.filter, ht]
    · subst h1
      simp [List.filter, ht]
      ring

theorem mem_windowSlice {α : Type} (g : List α) (s W : Nat) (x : α)
    (hx : x ∈ windowSlice g s W) : x ∈ g :=
  List.mem_of_mem_drop (List.mem_of_mem_take hx)

theorem windowLabel_eq_one_iff (l : List ℚ) :
    windowLabel l = 1 ↔ ∃ x ∈ l, x ≠ 0 := by
  rw [windowLabel]
  by_cases h : (l.any fun x => x ≠ 0) = true
  · simp only [if_pos h]
    simp only [List.any_eq_true, decide_eq_true_eq] at h
    exact iff_of_true trivial h
  · simp only [if_neg h]
    simp only [List.any_eq_true, decide_eq_true_eq] at h
    push_neg at h
    refine iff_of_false (by norm_num) ?_
    rintro ⟨x, hx, hxne⟩
    exact absurd (h x hx) hxne

/-- C5: for every window emitted by `transform` over 0/1 labels, the feature
row's `label` (line 140, `int(window[label_col].any())`) is 1 iff some
constituent sample has label 1, and `positive_ratio` (line 141, `.mean()`)
equals the fraction of positive samples among the `W` samples and lies in
`[0, 1]`. -/
theorem window_label_ratio_c5 (g : List ℚ) (W S : Nat) (hW : 0 < W)
    (hS : 0 < S) (hlab : ∀ x ∈ g, x = 0 ∨ x = 1) :
    ∀ p ∈ groupWindows g W S,
      (windowLabel p.2 = 1 ↔ (1 : ℚ) ∈ p.2) ∧
      meanQ p.2 = ((p.2.filter (fun x => x = 1)).length : ℚ) / (p.2.length : ℚ) ∧
      0 ≤ meanQ p.2 ∧ meanQ p.2 ≤ 1 := by
  intro p hp
  have hsub : ∀ x ∈ p.2, x = 0 ∨ x = 1 := by
    rw [groupWindows] at hp
    rcases List.mem_map.mp hp with ⟨s, _, rfl⟩
    exact fun x hx => hlab x (mem_windowSlice g s W x hx)
  constructor
  · rw [windowLabel_eq_one_iff]
    constructor
    · rintro ⟨x, hx, hxne⟩
      rcases hsub x hx with h0 | h1'
      · exact absurd h0 hxne
      · exact h1' ▸ hx
    · intro h1
      exact ⟨1, h1, one_ne_zero⟩
  · have hsum := sum_of_zero_one p.2 hsub
    have hcount : ((p.2.filter (fun x => x = 1)).length : ℚ) ≤ (p.2.length : ℚ) := by
      exact_mod_cast List.length_filter_le _ _
    have hcount0 : (0 : ℚ) ≤ ((p.2.filter (fun x => x = 1)).length : ℚ) := by
      positivity
    refine ⟨by rw [meanQ, hsum], ?_, ?_⟩
    · rw [meanQ, hsum]
      positivity
    · rw [meanQ, hsum]
      rcases Nat.eq_zero_or_pos p.2.length with hz | hpos
      · simp [hz]
      · have hlen : (0 : ℚ) < (p.2.length : ℚ) := by exact_mod_cast hpos
        rw [div_le_one hlen]
        exact hcount

/-- Witness for C5: the statement applied to the concrete 4-sample stream
`[0, 1, 0, 0]` with `window_size = 2`, `step_size = 2`, at its first emitted
window `(0, [0, 1])`. -/
theorem window_label_ratio_c5_witness :
    (windowLabel ((0, [0, 1]) : Nat × List ℚ).2 = 1 ↔
        (1 : ℚ) ∈ ((0, [0, 1]) : Nat × List ℚ).2) ∧
      meanQ ((0, [0, 1]) : Nat × List ℚ).2 =
        ((((0, [0, 1]) : Nat × List ℚ).2.filter (fun x => x = 1)).length : ℚ) /
          ((((0, [0, 1]) : Nat × List ℚ).2.length : ℚ)) ∧
      0 ≤ meanQ ((0, [0, 1]) : Nat × List ℚ).2 ∧
      meanQ ((0, [0, 1]) : Nat × List ℚ).2 ≤ 1 :=
  window_label_ratio_c5 [0, 1, 0, 0] 2 2 (by decide) (by decide) (by decide)
    (0, [0, 1]) (by decide)

/-! ### Threshold optimisation
(`AccelerometerAccidentDetector._optimise_threshold`, lines 248-273) -/

/-- Epsilon guard used in the F1 formula, `1e-12`. -/
def epsQ : ℚ := 1 / 10 ^ 12

/-- Index returned by `np.argmax` on a non-empty list: the first index
attaining the maximum value (`np.argmax` breaks ties towards the smaller
index).  `npArgmax [] = 0` is never used by the embedded code paths. -/
def npArgmax : List ℚ → Nat
  | [] => 0
  | [_] => 0
  | x :: y :: rest =>
      let r := npArgmax (y :: rest)
      if x < (y :: rest).getD r 0 then r + 1 else 0

/-- Result record of `_optimise_threshold`. -/
structure ThresholdInfo where
  optimal_threshold : ℚ
  optimal_precision : ℚ
  optimal_recall : ℚ
  recall_threshold : ℚ
  recall_precision : ℚ
  recall_recall : ℚ
  deriving Repr, DecidableEq

/-- F1 scores, line 250: `2 * (precision * recall) / (precision + recall + 1e-12)`
computed elementwise over the full precision/recall arrays. -/
def f1Scores (precL recL : List ℚ) : List ℚ :=
  List.zipWith (fun p r => 2 * (p * r) / (p + r + epsQ)) precL recL

/-- Shallow embedding of `_optimise_threshold` (lines 248-273) given the
`precision_recall_curve` output `(precision, recall, thresholds)`:
`threshold_candidates = [0.0] ++ thresholds`; `best_idx = argmax(f1)`;
`np.where(recall >= target)[0]` taken as its first element when non-empty
(`findIdx?`), else the fallback branch. -/
def optimiseThreshold (target : ℚ) (precL recL thrL : List ℚ) :
    ThresholdInfo :=
  let f1 := f1Scores precL recL
  let cands := 0 :: thrL
  let best := npArgmax f1
  let opt := cands.getD (min best (cands.length - 1)) 0
  match recL.findIdx? (fun r => target ≤ r) with
  | some idx =>
      { optimal_threshold := opt
        optimal_precision := precL.getD best 0
        optimal_recall := recL.getD best 0
        recall_threshold := cands.getD (min idx (cands.length - 1)) 0
        recall_precision := precL.getD idx 0
        recall_recall := recL.getD idx 0 }
  | none =>
      { optimal_threshold := opt
        optimal_precision := precL.getD best 0
        optimal_recall := recL.getD best 0
        recall_threshold := opt
        recall_precision := precL.getD best 0
        recall_recall := recL.getD best 0 }

/-! ### First-maximum characterisation of `npArgmax` -/

theorem npArgmax_lt_length (l : List ℚ) (h : l ≠ []) :
    npArgmax l < l.length := by
  induction l with
  | nil => exact absurd rfl h
  | cons x xs ih =>
    cases xs with
    | nil => simp [npArgmax]
    | cons y t =>
      have hlt := ih (by simp)
      rw [npArgmax]
      split
      · simpa using Nat.succ_lt_succ hlt
      · simp

theorem npArgmax_cons_cons (x y : ℚ) (t : List ℚ) :
    npArgmax (x :: y :: t) =
      if x < (y :: t).getD (npArgmax (y :: t)) 0 then npArgmax (y :: t) + 1
      else 0 := by
  rw [npArgmax]

theorem npArgmax_le (l : List ℚ) (i : Nat) (hi : i < l.length) :
    l.getD i 0 ≤ l.getD (npArgmax l) 0 := by
  induction l generalizing i with
  | nil => simp at hi
  | cons x xs ih =>
    cases xs with
    | nil =>
      cases i with
      | zero => simp [npArgmax]
      | succ j => simp at hi
    | cons y t =>
      by_cases hx : x < (y :: t).getD (npArgmax (y :: t)) 0
      · rw [npArgmax_cons_cons, if_pos hx]
        cases i with
        | zero => simpa using le_of_lt hx
        | succ j =>
          have hj : j < (y :: t).length := by simpa using hi
          simpa using ih j hj
      · rw [npArgmax_cons_cons, if_neg hx]
        push_neg at hx
        cases i with
        | zero => simp
        | succ j =>
          have hj : j < (y :: t).length := by simpa using hi
          have hle := le_trans (ih j hj) hx
          simpa using hle

theorem npArgmax_first (l : List ℚ) (i : Nat) (hi : i < npArgmax l) :
    l.getD i 0 < l.getD (npArgmax l) 0 := by
  induction l generalizing i with
  | nil => simp [npArgmax] at hi
  | cons x xs ih =>
    cases xs with
    | nil => simp [npArgmax] at hi
    | cons y t =>
      by_cases hx : x < (y :: t).getD (npArgmax (y :: t)) 0
      · rw [npArgmax_cons_cons, if_pos hx] at hi ⊢
        cases i with
        | zero => simpa using hx
        | succ j =>
          have hj : j < npArgmax (y :: t) := by omega
          simpa using ih j hj
      · rw [npArgmax_cons_cons, if_neg hx] at hi
        omega

theorem npArgmax_unique (l : List ℚ) (b : Nat) (hb : b < l.length)
    (hmax : ∀ i, i < l.length → l.getD i 0 ≤ l.getD b 0)
    (hfirst : ∀ i, i < b → l.getD i 0 < l.getD b 0) : b = npArgmax l := by
  have hne : l ≠ [] := by
    intro hnil
    rw [hnil] at hb
    simp at hb
  have ha := npArgmax_lt_length l hne
  rcases Nat.lt_trichotomy b (npArgmax l) with hlt | heq | hgt
  · have h1 := npArgmax_first l b hlt
    have h2 := hmax (npArgmax l) ha
    exact absurd h1 (not_lt.mpr h2)
  · exact heq
  · have h1 := hfirst (npArgmax l) hgt
    have h2 := npArgmax_le l b hb
    exact absurd h1 (not_lt.mpr h2)

theorem npArgmax_dropLast (l : List ℚ) (h : npArgmax l + 1 < l.length) :
    npArgmax l.dropLast = npArgmax l := by
  have hlen : l.dropLast.length = l.length - 1 := List.length_dropLast l
  have hget : ∀ i, i < l.length - 1 → l.dropLast.getD i 0 = l.getD i 0 := by
    intro i hi
    have h1 : i < l.dropLast.length := by omega
    have h2 : i < l.length := by omega
    rw [List.getD_eq_getElem _ _ h1, List.getD_eq_getElem _ _ h2,
      List.getElem_dropLast]
  have hb : npArgmax l < l.dropLast.length := by omega
  refine (npArgmax_unique l.dropLast (npArgmax l) hb ?_ ?_).symm
  · intro i hi
    rw [hget i (by omega), hget (npArgmax l) (by omega)]
    exact npArgmax_le l i (by omega)
  · intro i hi
    rw [hget i (by omega), hget (npArgmax l) (by omega)]
    exact npArgmax_first l i hi

theorem epsQ_pos : 0 < epsQ := by norm_num [epsQ]

theorem f1Scores_length (precL recL : List ℚ) :
    (f1Scores precL recL).length = min precL.length recL.length := by
  simp [f1Scores]

theorem f1Scores_getElem (precL recL : List ℚ) (i : Nat)
    (hi : i < (f1Scores precL recL).length) (hip : i < precL.length)
    (hir : i < recL.length) :
    (f1Scores precL recL)[i] =
      2 * (precL[i] * recL[i]) / (precL[i] + recL[i] + epsQ) := by
  simp [f1Scores, List.getElem_zipWith]

theorem f1Scores_nonneg (precL recL : List ℚ)
    (hpn : ∀ p ∈ precL, 0 ≤ p) (hrn : ∀ r ∈ recL, 0 ≤ r) :
    ∀ i, i < (f1Scores precL recL).length →
      0 ≤ (f1Scores precL recL).getD i 0 := by
  intro i hi
  have hip : i < precL.length := by
    rw [f1Scores_length] at hi
    omega
  have hir : i < recL.length := by
    rw [f1Scores_length] at hi
    omega
  rw [List.getD_eq_getElem _ _ hi, f1Scores_getElem precL recL i hi hip hir]
  have hp0 : 0 ≤ precL[i] := hpn _ (List.getElem_mem hip)
  have hr0 : 0 ≤ recL[i] := hrn _ (List.getElem_mem hir)
  apply div_nonneg
  · nlinarith
  · nlinarith [epsQ_pos]

/-! ### Claim C2 -/

/-- C2: in `_optimise_threshold` the candidate-threshold array is
`[0.0] ++ thresholds`, aligned index-wise with the precision/recall arrays
(which have one more entry than `thresholds`); `optimal_threshold` is the
candidate at the (first) index maximising `F1 = 2*P*R/(P+R+1e-12)` over that
pairing, `optimal_precision`/`optimal_recall` are the precision and recall at
that index; and the terminal precision/recall entry (the point with recall 0
and no defined threshold) never wins the argmax, so the selection coincides
with the pairing that drops the last precision/recall element. -/
theorem optimise_threshold_alignment_c2 (target : ℚ) (precL recL thrL : List ℚ)
    (hp : precL.length = thrL.length + 1)
    (hr : recL.length = thrL.length + 1)
    (hpn : ∀ p ∈ precL, 0 ≤ p) (hrn : ∀ r ∈ recL, 0 ≤ r)
    (hlast : recL.getD thrL.length 0 = 0) (hne : thrL ≠ []) :
    (optimiseThreshold target precL recL thrL).optimal_threshold =
        (0 :: thrL).getD (npArgmax (f1Scores precL recL)) 0 ∧
      (∀ i, i < precL.length →
        (f1Scores precL recL).getD i 0 ≤
          (f1Scores precL recL).getD (npArgmax (f1Scores precL recL)) 0) ∧
      (optimiseThreshold target precL recL thrL).optimal_precision =
        precL.getD (npArgmax (f1Scores precL recL)) 0 ∧
      (optimiseThreshold target precL recL thrL).optimal_recall =
        recL.getD (npArgmax (f1Scores precL recL)) 0 ∧
      npArgmax (f1Scores precL recL) < thrL.length ∧
      npArgmax ((f1Scores precL recL).dropLast) =
        npArgmax (f1Scores precL recL) := by
  have hlen : (f1Scores precL recL).length = thrL.length + 1 := by
    rw [f1Scores_length, hp, hr]
    simp
  have hne1 : f1Scores precL recL ≠ [] := by
    intro h
    rw [h] at hlen
    simp at hlen
  have hbestlt : npArgmax (f1Scores precL recL) < (f1Scores precL recL).length :=
    npArgmax_lt_length _ hne1
  have hnn := f1Scores_nonneg precL recL hpn hrn
  have hn1 : 0 < thrL.length := List.length_pos.mpr hne
  have hlastf1 : (f1Scores precL recL).getD thrL.length 0 = 0 := by
    have hidx : thrL.length < (f1Scores precL recL).length := by omega
    have hip : thrL.length < precL.length := by omega
    have hir : thrL.length < recL.length := by omega
    rw [List.getD_eq_getElem _ _ hidx,
      f1Scores_getElem precL recL _ hidx hip hir]
    have hrl : recL[thrL.length] = 0 := by
      have h' := hlast
      rwa [List.getD_eq_getElem _ _ hir] at h'
    rw [hrl]
    simp
  have hbest_ne : npArgmax (f1Scores precL recL) ≠ thrL.length := by
    intro heq
    have h0lt : 0 < (f1Scores precL recL).length := by omega
    have h0n : 0 ≤ (f1Scores precL recL).getD 0 0 := hnn 0 h0lt
    have hz : (f1Scores precL recL).getD (npArgmax (f1Scores precL recL)) 0 = 0 := by
      rw [heq]
      exact hlastf1
    have h0pos : 0 < npArgmax (f1Scores precL recL) := by omega
    have hstrict := npArgmax_first (f1Scores precL recL) 0 h0pos
    rw [hz] at hstrict
    linarith
  have hbest : npArgmax (f1Scores precL recL) < thrL.length := by omega
  have hmin2 : min (npArgmax (f1Scores precL recL)) thrL.length =
      npArgmax (f1Scores precL recL) := by omega
  have hb2 : npArgmax (f1Scores precL recL) < (0 :: thrL).length := by
    simp only [List.length_cons]
    omega
  refine ⟨?_, ?_, ?_, ?_, hbest, npArgmax_dropLast _ (by omega)⟩
  · cases hfi : recL.findIdx? (fun r => target ≤ r) with
    | none => simp [optimiseThreshold, hfi, hmin2, List.getElem?_eq_getElem hb2]
    | some idx => simp [optimiseThreshold, hfi, hmin2, List.getElem?_eq_getElem hb2]
  · intro i hi
    exact npArgmax_le _ i (by omega)
  · cases hfi : recL.findIdx? (fun r => target ≤ r) with
    | none => simp [optimiseThreshold, hfi]
    | some idx => simp [optimiseThreshold, hfi]
  · cases hfi : recL.findIdx? (fun r => target ≤ r) with
    | none => simp [optimiseThreshold, hfi]
    | some idx => simp [optimiseThreshold, hfi]

/-- Witness for C2 applied to a concrete precision-recall curve with
`precision = [1, 1, 1]`, `recall = [1, 1, 0]`, `thresholds = [1, 2]`,
`target_recall = 1`. -/
theorem optimise_threshold_alignment_c2_witness :
    (optimiseThreshold 1 [1, 1, 1] [1, 1, 0] [1, 2]).optimal_threshold =
      (0 :: [1, 2] : List ℚ).getD (npArgmax (f1Scores [1, 1, 1] [1, 1, 0])) 0 ∧
    npArgmax (f1Scores ([1, 1, 1] : List ℚ) [1, 1, 0]) <
      ([1, 2] : List ℚ).length :=
  ⟨(optimise_threshold_alignment_c2 1 [1, 1, 1] [1, 1, 0] [1, 2] (by decide)
      (by decide) (by decide) (by decide) (by decide) (by decide)).1,
    (optimise_threshold_alignment_c2 1 [1, 1, 1] [1, 1, 0] [1, 2] (by decide)
      (by decide) (by decide) (by decide) (by decide) (by decide)).2.2.2.2.1⟩

theorem cons_zero_getD_nonneg (thrL : List ℚ) (htn : ∀ x ∈ thrL, 0 ≤ x)
    (j : Nat) : 0 ≤ (0 :: thrL).getD j 0 := by
  cases j with
  | zero => simp
  | succ k =>
    rw [List.getD_cons_succ]
    by_cases hk : k < thrL.length
    · rw [List.getD_eq_getElem _ _ hk]
      exact htn _ (List.getElem_mem hk)
    · push_neg at hk
      simp [List.getD_eq_getElem?_getD, List.getElem?_eq_none hk]

/-! ### Claim C4 -/

/-- C4: in `_optimise_threshold`, when some index achieves
`recall ≥ target_recall` the code picks the first such index (which is the
smallest candidate threshold achieving the target, candidates being
index-aligned with the recall array), reports precision/recall at that point,
and that threshold is `≤ optimal_threshold`; when no index achieves the
target, `recall_threshold`, `recall_precision` and `recall_recall` all fall
back to the F1-optimal threshold and its precision/recall.  Hypotheses:
thresholds are non-negative and the recall array is non-increasing — both
invariants of `sklearn.metrics.precision_recall_curve`. -/
theorem recall_threshold_selection_c4 (target : ℚ) (precL recL thrL : List ℚ)
    (htn : ∀ x ∈ thrL, 0 ≤ x) (hant : List.Sorted (· ≥ ·) recL) :
    (∀ idx, recL.findIdx? (fun r => target ≤ r) = some idx →
      target ≤ recL.getD idx 0 ∧
      (optimiseThreshold target precL recL thrL).recall_threshold =
        (0 :: thrL).getD idx 0 ∧
      (∀ j, target ≤ recL.getD j 0 →
        (optimiseThreshold target precL recL thrL).recall_threshold ≤
          (0 :: thrL).getD j 0) ∧
      (optimiseThreshold target precL recL thrL).recall_precision =
        precL.getD idx 0 ∧
      (optimiseThreshold target precL recL thrL).recall_recall =
        recL.getD idx 0 ∧
      (optimiseThreshold target precL recL thrL).recall_threshold ≤
        (optimiseThreshold target precL recL thrL).optimal_threshold) ∧
    (recL.findIdx? (fun r => target ≤ r) = none →
      (optimiseThreshold target precL recL thrL).recall_threshold =
        (optimiseThreshold target precL recL thrL).optimal_threshold ∧
      (optimiseThreshold target precL recL thrL).recall_precision =
        (optimiseThreshold target precL recL thrL).optimal_precision ∧
      (optimiseThreshold target precL recL thrL).recall_recall =
        (optimiseThreshold target precL recL thrL).optimal_recall) := by
  constructor
  · intro idx hfi
    obtain ⟨hidx, hpi, hj⟩ := List.findIdx?_eq_some_iff_getElem.mp hfi
    have hpi' : target ≤ recL[idx] := by simpa using hpi
    have hidx0 : idx = 0 := by
      by_contra hne0
      have h0 : 0 < idx := Nat.pos_of_ne_zero hne0
      have h0len : 0 < recL.length := by omega
      have hge : recL[idx] ≤ recL[0] :=
        (List.pairwise_iff_getElem.mp hant) 0 idx h0len hidx h0
      have hnot := hj 0 h0
      simp only [decide_eq_true_eq] at hnot
      exact hnot (le_trans hpi' hge)
    subst hidx0
    have hrt : (optimiseThreshold target precL recL thrL).recall_threshold = 0 := by
      simp [optimiseThreshold, hfi]
    have hopt : 0 ≤ (optimiseThreshold target precL recL thrL).optimal_threshold := by
      have hform : (optimiseThreshold target precL recL thrL).optimal_threshold =
          (0 :: thrL).getD
            (min (npArgmax (f1Scores precL recL)) ((0 :: thrL).length - 1)) 0 := by
        cases hfi2 : recL.findIdx? (fun r => target ≤ r) with
        | none => simp [optimiseThreshold, hfi2]
        | some k => simp [optimiseThreshold, hfi2]
      rw [hform]
      exact cons_zero_getD_nonneg thrL htn _
    refine ⟨?_, ?_, ?_, ?_, ?_, ?_⟩
    · rw [List.getD_eq_getElem _ _ hidx]
      exact hpi'
    · rw [hrt]
      simp
    · intro j _
      rw [hrt]
      exact cons_zero_getD_nonneg thrL htn j
    · simp [optimiseThreshold, hfi]
    · simp [optimiseThreshold, hfi]
    · rw [hrt]
      exact hopt
  · intro hfi
    refine ⟨?_, ?_, ?_⟩ <;> simp [optimiseThreshold, hfi]

/-- Witness for C4 applied to the same concrete curve as the C2 witness:
`recall = [1, 1, 0]` reaches `target_recall = 1` at index 0 and the resulting
`recall_threshold` is at most `optimal_threshold`. -/
theorem recall_threshold_selection_c4_witness :
    (1 : ℚ) ≤ ([1, 1, 0] : List ℚ).getD 0 0 ∧
    (optimiseThreshold 1 [1, 1, 1] [1, 1, 0] [1, 2]).recall_threshold ≤
      (optimiseThreshold 1 [1, 1, 1] [1, 1, 0] [1, 2]).optimal_threshold :=
  ⟨((recall_threshold_selection_c4 1 [1, 1, 1] [1, 1, 0] [1, 2] (by decide)
      (by decide)).1 0 (by decide)).1,
    ((recall_threshold_selection_c4 1 [1, 1, 1] [1, 1, 0] [1, 2] (by decide)
      (by decide)).1 0 (by decide)).2.2.2.2.2⟩

/-! ### Feature-column bookkeeping at fit and inference time
(`AccelerometerAccidentDetector.fit`, lines 126-135, and
`scripts/predict_accidents.py`, lines 180-195) -/

/-- Non-feature columns excluded by `fit` (detector lines 126-132); note the
set does NOT contain `positive_ratio`. -/
def fitNonFeatureCols : List String :=
  ["label", "vehicle_id", "window_index", "window_start_ts", "window_end_ts"]

/-- Non-feature columns excluded by `predict_accidents.py` (lines 180-187);
this set DOES contain `positive_ratio`. -/
def predictNonFeatureCols : List String :=
  ["label", "vehicle_id", "window_index", "window_start_ts", "window_end_ts",
    "positive_ratio"]

/-- Feature columns recorded at fit time,
`[col for col in features_df.columns if col not in non_feature_cols]`. -/
def fitFeatureCols (cols : List String) : List String :=
  cols.filter (fun c => !fitNonFeatureCols.contains c)

/-- Feature columns assembled by the inference script. -/
def predictFeatureCols (cols : List String) : List String :=
  cols.filter (fun c => !predictNonFeatureCols.contains c)

/-- Columns of every feature row produced by `transform`: the computed
feature keys followed by the six identity/label columns added on lines
136-141 (`vehicle_id`, `window_index`, `window_start_ts`, `window_end_ts`,
`label`, `positive_ratio`). -/
def windowRowCols (featureKeys : List String) : List String :=
  featureKeys ++ ["vehicle_id", "window_index", "window_start_ts",
    "window_end_ts", "label", "positive_ratio"]

/-- Feature-count check performed inside the fitted scikit-learn pipeline
(`StandardScaler.transform` validates that `X` has the same number of
features as seen during `fit`; this is the only check that runs at inference
time — the repository code itself never compares column names).  Returns the
number of prediction rows on success. -/
def pipelinePredict (nFeaturesIn : Nat) (x : List (List ℚ)) :
    Except String Nat :=
  if x.all (fun row => row.length = nFeaturesIn) then Except.ok x.length
  else Except.error "X has a different number of features than during fitting"

/-- Inference path of `predict_accidents.py`: build the feature matrix from
the columns NOT in `predictNonFeatureCols` and call the pipeline, whose only
validation is the feature count recorded at fit time. -/
def inferenceOutcome (fitCols : List String) (tableCols : List String) :
    Except String Nat :=
  pipelinePredict fitCols.length
    [(predictFeatureCols tableCols).map (fun _ => (0 : ℚ))]

/-! ### Claim C3 -/

/-- Counterexample for C3: a detector fitted on feature columns
`["a", "b"]` (plus the label column) and an inference table whose feature
columns are `["a", "c"]` — a different column set of the same size — runs
prediction successfully instead of failing: no ValidationError, no error at
all.  The repository performs no column-name validation. -/
theorem inference_mismatch_c3_counterexample :
    fitFeatureCols ["a", "b", "label"] ≠ predictFeatureCols ["a", "c", "label"] ∧
    inferenceOutcome (fitFeatureCols ["a", "b", "label"]) ["a", "c", "label"] =
      Except.ok 1 := by
  constructor
  · decide
  · rfl

/-- C3 amended: inference fails (with the scikit-learn feature-count error,
not a repository-level ValidationError) exactly when the number of inference
feature columns differs from the number recorded at fit time; a mismatched
column set of the same size is not detected and silently predicts. -/
theorem inference_mismatch_c3_amended (fitCols tableCols : List String) :
    ((predictFeatureCols tableCols).length = fitCols.length →
      inferenceOutcome fitCols tableCols = Except.ok 1) ∧
    ((predictFeatureCols tableCols).length ≠ fitCols.length →
      inferenceOutcome fitCols tableCols =
        Except.error "X has a different number of features than during fitting") := by
  constructor
  · intro h
    simp [inferenceOutcome, pipelinePredict, h]
  · intro h
    simp [inferenceOutcome, pipelinePredict, h]

/-- Witness for the amended C3: count mismatch (2 recorded vs 1 supplied)
errors, matching count predicts. -/
theorem inference_mismatch_c3_amended_witness :
    inferenceOutcome ["a", "b"] ["a", "label"] =
      Except.error "X has a different number of features than during fitting" :=
  (inference_mismatch_c3_amended ["a", "b"] ["a", "label"]).2 (by decide)

/-! ### Claim C9 -/

/-- C9: for any set of computed feature keys (which never collide with the
six identity/label names), the fit-time feature columns contain
`positive_ratio` — the label-derived column — while the inference script's
feature columns exclude it; every inference feature column is a fit feature
column, so the fit-time set strictly contains the inference-time set for the
same transform output schema. -/
theorem feature_columns_mismatch_c9 (featureKeys : List String) :
    "positive_ratio" ∈ fitFeatureCols (windowRowCols featureKeys) ∧
    "positive_ratio" ∉ predictFeatureCols (windowRowCols featureKeys) ∧
    (∀ c, c ∈ predictFeatureCols (windowRowCols featureKeys) →
      c ∈ fitFeatureCols (windowRowCols featureKeys)) ∧
    fitFeatureCols (windowRowCols featureKeys) ≠
      predictFeatureCols (windowRowCols featureKeys) := by
  have hmem : "positive_ratio" ∈ windowRowCols featureKeys := by
    simp [windowRowCols]
  have hfit : "positive_ratio" ∈ fitFeatureCols (windowRowCols featureKeys) := by
    rw [fitFeatureCols, List.mem_filter]
    exact ⟨hmem, by decide⟩
  have hpred : "positive_ratio" ∉ predictFeatureCols (windowRowCols featureKeys) := by
    rw [predictFeatureCols, List.mem_filter]
    rintro ⟨-, hkeep⟩
    simp [predictNonFeatureCols] at hkeep
  refine ⟨hfit, hpred, ?_, ?_⟩
  · intro c hc
    rw [predictFeatureCols, List.mem_filter] at hc
    rw [fitFeatureCols, List.mem_filter]
    refine ⟨hc.1, ?_⟩
    have h2 := hc.2
    simp only [Bool.not_eq_true', fitNonFeatureCols, predictNonFeatureCols,
      List.contains_cons, List.contains_nil, Bool.or_eq_false_iff,
      beq_eq_false_iff_ne] at h2 ⊢
    tauto
  · intro heq
    rw [heq] at hfit
    exact hpred hfit

/-! ### Float values with NaN and infinities
(model of the numpy float64 values stored in the feature table; finite
values are exact rationals) -/

inductive FVal where
  | fin : ℚ → FVal
  | pinf : FVal
  | ninf : FVal
  | nan : FVal
  deriving Repr, DecidableEq

/-- Truth of `np.isfinite` on a stored value. -/
def FVal.isFinite : FVal → Bool
  | .fin _ => true
  | _ => false

/-- Step `replace([np.inf, -np.inf], np.nan)` of `transform`, line 162-164,
applied cell-wise. -/
def replaceInfNan : FVal → FVal
  | .pinf => .nan
  | .ninf => .nan
  | v => v

/-- Step `fillna(0.0)` of `transform`, line 165, applied cell-wise. -/
def fillnaZero : FVal → FVal
  | .nan => .fin 0
  | v => v

/-- Final cleanup applied by `transform` to every feature cell: first
infinities become NaN, then NaN becomes 0.0. -/
def cleanCell (v : FVal) : FVal := fillnaZero (replaceInfNan v)

/-- Columns excluded from the cleanup (`transform` lines 149-161). -/
def transformNonFeatureCols : List String :=
  ["label", "vehicle_id", "window_index", "window_start_ts", "window_end_ts",
    "positive_ratio"]

/-- Lines 148-166 of `transform`: the assembled window rows with the cleanup
applied to every cell of a feature column. -/
def transformCleanup (rows : List (List (String × FVal))) :
    List (List (String × FVal)) :=
  rows.map (fun row =>
    row.map (fun kv =>
      if transformNonFeatureCols.contains kv.1 then kv
      else (kv.1, cleanCell kv.2)))

/-! ### Claim C6 -/

theorem cleanCell_isFinite (v : FVal) : (cleanCell v).isFinite = true := by
  cases v <;> rfl

/-- C6: whatever values the per-window feature computation produced
(including NaN from zero-variance skewness/kurtosis/correlation and any
infinities), every cell of a numeric feature column of the returned table is
finite — `±inf` and NaN have been replaced by `0.0` — for every input on
which `transform` succeeds, constant-valued axes included. -/
theorem transform_no_nan_inf_c6 (rows : List (List (String × FVal)))
    (row : List (String × FVal)) (kv : String × FVal)
    (hrow : row ∈ transformCleanup rows) (hkv : kv ∈ row)
    (hfeat : kv.1 ∉ transformNonFeatureCols) : kv.2.isFinite = true := by
  rw [transformCleanup, List.mem_map] at hrow
  obtain ⟨row0, -, rfl⟩ := hrow
  rw [List.mem_map] at hkv
  obtain ⟨kv0, -, rfl⟩ := hkv
  by_cases hc : transformNonFeatureCols.contains kv0.1
  · exfalso
    rw [if_pos hc] at hfeat
    exact hfeat (by simpa using hc)
  · rw [if_neg hc]
    exact cleanCell_isFinite kv0.2

/-- Witness for C6 on a concrete two-cell row holding a NaN skewness and an
infinite energy. -/
theorem transform_no_nan_inf_c6_witness :
    (("accel_x_skew", cleanCell FVal.nan) : String × FVal).2.isFinite = true :=
  transform_no_nan_inf_c6
    [[("accel_x_skew", FVal.nan), ("accel_x_energy", FVal.pinf)]]
    [("accel_x_skew", cleanCell FVal.nan), ("accel_x_energy", cleanCell FVal.pinf)]
    ("accel_x_skew", cleanCell FVal.nan) (by decide) (by decide) (by decide)

/-! ### Per-window feature computation
(`_series_statistics`, `_jerk_statistics`, `_correlation_features`,
`_fft_features`, `_zero_crossing_rate`, `_vector_magnitude`,
lines 237-328) -/

/-- Model of `np.sqrt` on the rationals; it agrees with the real square root
whenever the argument is the square of a rational, and every theorem below
evaluates it only at such arguments (in fact only at `0`). -/
def npSqrt (q : ℚ) : ℚ := Rat.sqrt q

/-- Value of `np.max` on a non-empty series (`0` padding for the empty case,
which the code never reaches thanks to the `len == 0` guard). -/
def maxQ : List ℚ → ℚ
  | [] => 0
  | x :: xs => xs.foldl max x

/-- Value of `np.min` on a non-empty series. -/
def minQ : List ℚ → ℚ
  | [] => 0
  | x :: xs => xs.foldl min x

/-- Energy `np.sum(series**2)`. -/
def energyQ (l : List ℚ) : ℚ := (l.map (fun x => x ^ 2)).sum

/-- Mean-centred series. -/
def centeredQ (l : List ℚ) : List ℚ := l.map (fun x => x - meanQ l)

/-- Central moment of order `k`, `np.mean((series - mean)**k)`. -/
def momentQ (k : Nat) (l : List ℚ) : ℚ :=
  meanQ ((centeredQ l).map (fun x => x ^ k))

/-- Population variance, `np.std(series)**2`. -/
def varQ (l : List ℚ) : ℚ := momentQ 2 l

/-- Population standard deviation `np.std`. -/
def stdQ (l : List ℚ) : ℚ := npSqrt (varQ l)

/-- `scipy.stats.skew`: `m3 / m2**1.5`, which is `0/0 = NaN` on a
zero-variance series. -/
def skewE (l : List ℚ) : FVal :=
  if varQ l = 0 then FVal.nan
  else FVal.fin (momentQ 3 l / npSqrt (varQ l ^ 3))

/-- `scipy.stats.kurtosis` (Fisher): `m4 / m2**2 - 3`, `NaN` on a
zero-variance series. -/
def kurtE (l : List ℚ) : FVal :=
  if varQ l = 0 then FVal.nan
  else FVal.fin (momentQ 4 l / varQ l ^ 2 - 3)

/-- `np.signbit` on a rational (no `-0.0` at this level). -/
def signbitQ (q : ℚ) : Bool := q < 0

/-- Number of adjacent sign-bit changes,
`len(np.where(np.diff(np.signbit(centered)))[0])`. -/
def countChanges : List Bool → Nat
  | a :: b :: t => (if a ≠ b then 1 else 0) + countChanges (b :: t)
  | _ => 0

/-- `_zero_crossing_rate`, lines 318-324: `0.0` for fewer than 2 samples,
otherwise the number of sign-bit changes of the mean-centred series divided
by `n - 1`. -/
def zcrQ (l : List ℚ) : ℚ :=
  if l.length < 2 then 0
  else (countChanges ((centeredQ l).map signbitQ) : ℚ) / ((l.length : ℚ) - 1)

/-- `_series_statistics`, lines 237-264: the ten per-series features, with
the all-zero fallback for an empty series; skewness and kurtosis may be NaN
(cleaned up later by `transform`). -/
def seriesStats (tag : String) (l : List ℚ) : List (String × FVal) :=
  if l.length = 0 then
    [(tag ++ "_mean", FVal.fin 0), (tag ++ "_std", FVal.fin 0),
      (tag ++ "_max", FVal.fin 0), (tag ++ "_min", FVal.fin 0),
      (tag ++ "_range", FVal.fin 0), (tag ++ "_ptp", FVal.fin 0),
      (tag ++ "_energy", FVal.fin 0), (tag ++ "_skew", FVal.fin 0),
      (tag ++ "_kurtosis", FVal.fin 0), (tag ++ "_zcr", FVal.fin 0)]
  else
    [(tag ++ "_mean", FVal.fin (meanQ l)), (tag ++ "_std", FVal.fin (stdQ l)),
      (tag ++ "_max", FVal.fin (maxQ l)), (tag ++ "_min", FVal.fin (minQ l)),
      (tag ++ "_range", FVal.fin (maxQ l - minQ l)),
      (tag ++ "_ptp", FVal.fin (maxQ l - minQ l)),
      (tag ++ "_energy", FVal.fin (energyQ l)), (tag ++ "_skew", skewE l),
      (tag ++ "_kurtosis", kurtE l), (tag ++ "_zcr", FVal.fin (zcrQ l))]

/-- `_vector_magnitude`, line 326-328: `sqrt(x**2 + y**2 + z**2)` sample by
sample. -/
def vecMagnitude (xs ys zs : List ℚ) : List ℚ :=
  List.zipWith (fun a bc => npSqrt (a ^ 2 + bc.1 ^ 2 + bc.2 ^ 2)) xs
    (List.zip ys zs)

/-- One cross-axis Pearson correlation as produced by
`window[col_i].corr(window[col_j])` followed by the NaN-to-0 mapping of
`_correlation_features` (lines 307-316): the correlation is NaN — hence 0
after the mapping — when either series has fewer than 2 points or zero
variance. -/
def corrMapped (xs ys : List ℚ) : ℚ :=
  if xs.length < 2 ∨ (xs.map (fun x => (x - meanQ xs) ^ 2)).sum = 0 ∨
      (ys.map (fun y => (y - meanQ ys) ^ 2)).sum = 0 then 0
  else
    ((List.zip xs ys).map (fun p => (p.1 - meanQ xs) * (p.2 - meanQ ys))).sum /
      npSqrt ((xs.map (fun x => (x - meanQ xs) ^ 2)).sum *
        (ys.map (fun y => (y - meanQ ys) ^ 2)).sum)

/-- Linear combination `sum_n c(n) * series[n]` used to model one real or
imaginary component of an `np.fft.rfft` bin (the true coefficients are
cosines/sines; all theorems below hold for every coefficient choice). -/
def dotQ (c : Nat → ℚ) (l : List ℚ) : ℚ :=
  ((List.range l.length).map (fun n => c n * l.getD n 0)).sum

/-- Magnitude spectrum `np.abs(np.fft.rfft(series))`, parametrised by the
real/imaginary coefficient matrices. -/
def rfftMagWith (cRe cIm : Nat → Nat → ℚ) (l : List ℚ) : List ℚ :=
  (List.range (l.length / 2 + 1)).map
    (fun k => npSqrt ((dotQ (cRe k) l) ^ 2 + (dotQ (cIm k) l) ^ 2))

/-- `_fft_features`, lines 280-305, parametrised by the DFT coefficient
matrices and the logarithm function (both transcendental in general; the
claims below are independent of their values): zero the DC bin, take the
dominant bin via `np.argmax` when the spectrum is not identically zero,
spectral energy, and spectral entropy `-sum(p * log(p + eps))` with
`p = spectrum / (sum + eps)`. -/
def fftFeaturesWith (cRe cIm : Nat → Nat → ℚ) (logF : ℚ → ℚ) (rate : ℚ)
    (tag : String) (l : List ℚ) : List (String × ℚ) :=
  if l.length < 2 then
    [(tag ++ "_dominant_freq", 0), (tag ++ "_dominant_power", 0),
      (tag ++ "_spectral_energy", 0), (tag ++ "_spectral_entropy", 0)]
  else
    [(tag ++ "_dominant_freq",
        ((List.range (l.length / 2 + 1)).map
          (fun (k : Nat) => (k : ℚ) * rate / (l.length : ℚ))).getD
          (if ((rfftMagWith cRe cIm l).set 0 0).any (fun s => s ≠ 0) then
            npArgmax ((rfftMagWith cRe cIm l).set 0 0) else 0) 0),
      (tag ++ "_dominant_power",
        ((rfftMagWith cRe cIm l).set 0 0).getD
          (if ((rfftMagWith cRe cIm l).set 0 0).any (fun s => s ≠ 0) then
            npArgmax ((rfftMagWith cRe cIm l).set 0 0) else 0) 0),
      (tag ++ "_spectral_energy",
        (((rfftMagWith cRe cIm l).set 0 0).map (fun s => s ^ 2)).sum),
      (tag ++ "_spectral_entropy",
        -((((rfftMagWith cRe cIm l).set 0 0).map
          (fun s => s / (((rfftMagWith cRe cIm l).set 0 0).sum + epsQ) *
            logF (s / (((rfftMagWith cRe cIm l).set 0 0).sum + epsQ) + epsQ))).sum))]

/-! ### Behaviour on the all-zero window -/

theorem npSqrt_zero : npSqrt 0 = 0 := by norm_num [npSqrt, Rat.sqrt]

theorem meanQ_replicate_zero (n : Nat) :
    meanQ (List.replicate n (0 : ℚ)) = 0 := by
  simp [meanQ, List.sum_replicate]

theorem centeredQ_replicate_zero (n : Nat) :
    centeredQ (List.replicate n (0 : ℚ)) = List.replicate n 0 := by
  simp [centeredQ, List.map_replicate, meanQ_replicate_zero]

theorem momentQ_replicate_zero (k n : Nat) (hk : k ≠ 0) :
    momentQ k (List.replicate n (0 : ℚ)) = 0 := by
  rw [momentQ, centeredQ_replicate_zero, List.map_replicate,
    zero_pow hk, meanQ_replicate_zero]

theorem varQ_replicate_zero (n : Nat) :
    varQ (List.replicate n (0 : ℚ)) = 0 :=
  momentQ_replicate_zero 2 n (by norm_num)

theorem foldl_max_replicate_zero (m : Nat) :
    (List.replicate m (0 : ℚ)).foldl max 0 = 0 := by
  induction m with
  | zero => rfl
  | succ k ih => simpa [List.replicate_succ] using ih

theorem foldl_min_replicate_zero (m : Nat) :
    (List.replicate m (0 : ℚ)).foldl min 0 = 0 := by
  induction m with
  | zero => rfl
  | succ k ih => simpa [List.replicate_succ] using ih

theorem maxQ_replicate_zero (n : Nat) :
    maxQ (List.replicate n (0 : ℚ)) = 0 := by
  cases n with
  | zero => rfl
  | succ m => simpa [List.replicate_succ, maxQ] using foldl_max_replicate_zero m

theorem minQ_replicate_zero (n : Nat) :
    minQ (List.replicate n (0 : ℚ)) = 0 := by
  cases n with
  | zero => rfl
  | succ m => simpa [List.replicate_succ, minQ] using foldl_min_replicate_zero m

theorem energyQ_replicate_zero (n : Nat) :
    energyQ (List.replicate n (0 : ℚ)) = 0 := by
  simp [energyQ, List.map_replicate, List.sum_replicate]

theorem countChanges_replicate (n : Nat) (a : Bool) :
    countChanges (List.replicate n a) = 0 := by
  induction n with
  | zero => rfl
  | succ m ih =>
    cases m with
    | zero => rfl
    | succ k =>
      rw [List.replicate_succ, List.replicate_succ, countChanges]
      rw [List.replicate_succ] at ih
      simp [ih]

theorem signbitQ_zero : signbitQ 0 = false := by
  simp [signbitQ]

theorem zcrQ_replicate_zero (n : Nat) :
    zcrQ (List.replicate n (0 : ℚ)) = 0 := by
  by_cases hn : (List.replicate n (0 : ℚ)).length < 2
  · rw [zcrQ, if_pos hn]
  · rw [zcrQ, if_neg hn, centeredQ_replicate_zero, List.map_replicate,
      signbitQ_zero, countChanges_replicate]
    simp

theorem seriesStats_replicate_zero (tag : String) (n : Nat) :
    ∀ kv ∈ seriesStats tag (List.replicate n (0 : ℚ)),
      cleanCell kv.2 = FVal.fin 0 := by
  intro kv hkv
  by_cases hn : (List.replicate n (0 : ℚ)).length = 0
  · rw [seriesStats, if_pos hn] at hkv
    simp only [List.mem_cons, List.not_mem_nil, or_false] at hkv
    rcases hkv with h | h | h | h | h | h | h | h | h | h <;> subst h <;> rfl
  · rw [seriesStats, if_neg hn] at hkv
    have hskew : skewE (List.replicate n (0 : ℚ)) = FVal.nan := by
      rw [skewE, if_pos (varQ_replicate_zero n)]
    have hkurt : kurtE (List.replicate n (0 : ℚ)) = FVal.nan := by
      rw [kurtE, if_pos (varQ_replicate_zero n)]
    simp only [List.mem_cons, List.not_mem_nil, or_false] at hkv
    rcases hkv with h | h | h | h | h | h | h | h | h | h <;> subst h <;>
      simp [cleanCell, replaceInfNan, fillnaZero, meanQ_replicate_zero,
        maxQ_replicate_zero, minQ_replicate_zero, energyQ_replicate_zero,
        zcrQ_replicate_zero, stdQ, varQ_replicate_zero, npSqrt_zero,
        hskew, hkurt]

theorem vecMagnitude_replicate_zero (n : Nat) :
    vecMagnitude (List.replicate n 0) (List.replicate n 0)
      (List.replicate n 0) = List.replicate n (0 : ℚ) := by
  induction n with
  | zero => rfl
  | succ m ih =>
    have h0 : npSqrt ((0 : ℚ) ^ 2 + (0 : ℚ) ^ 2 + (0 : ℚ) ^ 2) = 0 := by
      norm_num [npSqrt_zero]
    simp only [List.replicate_succ, vecMagnitude, List.zip_cons_cons,
      List.zipWith_cons_cons] at ih ⊢
    rw [h0, ih]

theorem getD_replicate_zero (n i : Nat) :
    (List.replicate n (0 : ℚ)).getD i 0 = 0 := by
  by_cases hi : i < n
  · have hi' : i < (List.replicate n (0 : ℚ)).length := by simpa using hi
    rw [List.getD_eq_getElem _ _ hi', List.getElem_replicate]
  · have hge : (List.replicate n (0 : ℚ)).length ≤ i := by simpa using not_lt.mp hi
    simp [List.getD_eq_getElem?_getD, List.getElem?_eq_none hge]

theorem dotQ_replicate_zero (c : Nat → ℚ) (n : Nat) :
    dotQ c (List.replicate n 0) = 0 := by
  apply List.sum_eq_zero
  intro x hx
  rw [List.mem_map] at hx
  obtain ⟨k, -, rfl⟩ := hx
  rw [getD_replicate_zero]
  exact mul_zero _

theorem rfftMagWith_replicate_zero (cRe cIm : Nat → Nat → ℚ) (n : Nat) :
    ∀ s ∈ rfftMagWith cRe cIm (List.replicate n 0), s = 0 := by
  intro s hs
  rw [rfftMagWith, List.mem_map] at hs
  obtain ⟨k, -, rfl⟩ := hs
  rw [dotQ_replicate_zero, dotQ_replicate_zero]
  norm_num [npSqrt_zero]

theorem spectrum_replicate_zero (cRe cIm : Nat → Nat → ℚ) (n : Nat) :
    ∀ s ∈ (rfftMagWith cRe cIm (List.replicate n 0)).set 0 0, s = 0 := by
  intro s hs
  rcases List.mem_or_eq_of_mem_set hs with hmem | h0
  · exact rfftMagWith_replicate_zero cRe cIm n s hmem
  · exact h0

/-! ### Claim C7 -/

/-- C7: on a window of all-zero acceleration on the three axes the feature
computation raises nothing (it is a total function into the stated values):
the magnitude series is the zero series and all its statistics clean up to
`0.0` (skewness/kurtosis NaN included), every cross-axis correlation maps its
NaN to `0.0`, and all four spectral features — spectral entropy in
particular — are `0.0` for the zero spectrum left after DC removal,
independently of the DFT coefficients and logarithm model. -/
theorem zero_window_features_c7 (n : Nat) (cRe cIm : Nat → Nat → ℚ)
    (logF : ℚ → ℚ) (rate : ℚ) :
    vecMagnitude (List.replicate n 0) (List.replicate n 0)
        (List.replicate n 0) = List.replicate n (0 : ℚ) ∧
      (∀ kv ∈ seriesStats "magnitude" (List.replicate n (0 : ℚ)),
        cleanCell kv.2 = FVal.fin 0) ∧
      corrMapped (List.replicate n 0) (List.replicate n 0) = 0 ∧
      (∀ kv ∈ fftFeaturesWith cRe cIm logF rate "magnitude_fft"
          (List.replicate n (0 : ℚ)), kv.2 = 0) := by
  refine ⟨vecMagnitude_replicate_zero n, seriesStats_replicate_zero _ n, ?_, ?_⟩
  · by_cases hn : (List.replicate n (0 : ℚ)).length < 2
    · rw [corrMapped, if_pos (Or.inl hn)]
    · have hvar : ((List.replicate n (0 : ℚ)).map
          (fun x => (x - meanQ (List.replicate n (0 : ℚ))) ^ 2)).sum = 0 := by
        simp [List.map_replicate, meanQ_replicate_zero, List.sum_replicate]
      rw [corrMapped, if_pos (Or.inr (Or.inl hvar))]
  · intro kv hkv
    by_cases hn : (List.replicate n (0 : ℚ)).length < 2
    · rw [fftFeaturesWith, if_pos hn] at hkv
      simp only [List.mem_cons, List.not_mem_nil, or_false] at hkv
      rcases hkv with h | h | h | h <;> subst h <;> rfl
    · have hspec := spectrum_replicate_zero cRe cIm n
      have hany : ((rfftMagWith cRe cIm (List.replicate n 0)).set 0 0).any
          (fun s => s ≠ 0) = false := by
        rw [List.any_eq_false]
        intro s hs
        simpa using hspec s hs
      have hcond : ¬ (((rfftMagWith cRe cIm (List.replicate n 0)).set 0 0).any
          (fun s => s ≠ 0) = true) := by
        rw [hany]
        exact Bool.false_ne_true
      have hslen : 0 < ((rfftMagWith cRe cIm
          (List.replicate n (0 : ℚ))).set 0 0).length := by
        rw [List.length_set, rfftMagWith, List.length_map, List.length_range]
        omega
      have hfreq : ((List.range ((List.replicate n (0 : ℚ)).length / 2 + 1)).map
          (fun (k : Nat) => (k : ℚ) * rate /
            ((List.replicate n (0 : ℚ)).length : ℚ))).getD 0 0 = 0 := by
        have hl : 0 < ((List.range ((List.replicate n (0 : ℚ)).length / 2 + 1)).map
            (fun (k : Nat) => (k : ℚ) * rate /
              ((List.replicate n (0 : ℚ)).length : ℚ))).length := by
          rw [List.length_map, List.length_range]
          omega
        rw [List.getD_eq_getElem _ _ hl, List.getElem_map, List.getElem_range]
        norm_num
      have hpow : (((rfftMagWith cRe cIm (List.replicate n 0)).set 0 0).map
          (fun s => s ^ 2)).sum = 0 := by
        apply List.sum_eq_zero
        intro x hx
        rw [List.mem_map] at hx
        obtain ⟨s, hs, rfl⟩ := hx
        rw [hspec s hs]
        norm_num
      have hent : ((((rfftMagWith cRe cIm (List.replicate n 0)).set 0 0).map
          (fun s => s / (((rfftMagWith cRe cIm (List.replicate n 0)).set 0 0).sum + epsQ) *
            logF (s / (((rfftMagWith cRe cIm (List.replicate n 0)).set 0 0).sum + epsQ) +
              epsQ))).sum) = 0 := by
        apply List.sum_eq_zero
        intro x hx
        rw [List.mem_map] at hx
        obtain ⟨s, hs, rfl⟩ := hx
        rw [hspec s hs, zero_div, zero_mul]
      have hdom : ((rfftMagWith cRe cIm (List.replicate n 0)).set 0 0).getD 0 0 = 0 := by
        rw [List.getD_eq_getElem _ _ hslen]
        exact hspec _ (List.getElem_mem hslen)
      have heq : fftFeaturesWith cRe cIm logF rate "magnitude_fft"
          (List.replicate n (0 : ℚ)) =
          [("magnitude_fft" ++ "_dominant_freq", 0),
            ("magnitude_fft" ++ "_dominant_power", 0),
            ("magnitude_fft" ++ "_spectral_energy", 0),
            ("magnitude_fft" ++ "_spectral_entropy", 0)] := by
        rw [fftFeaturesWith, if_neg hn, if_neg hcond, hfreq, hdom, hpow, hent,
          neg_zero]
      rw [heq] at hkv
      simp only [List.mem_cons, List.not_mem_nil, or_false] at hkv
      rcases hkv with h | h | h | h <;> subst h <;> rfl

/-! ### Zero-crossing rate (claim C8) -/

theorem countChanges_eq_filter (s : List Bool) :
    countChanges s = ((List.range (s.length - 1)).filter
      (fun i => s.getD i false ≠ s.getD (i + 1) false)).length := by
  induction s with
  | nil => rfl
  | cons a t ih =>
    cases t with
    | nil => rfl
    | cons b t2 =>
      rw [countChanges]
      have hlen : (a :: b :: t2).length - 1 = t2.length + 1 := by simp
      rw [hlen, List.range_succ_eq_map, List.filter_cons, List.filter_map]
      have hcomp : ((fun i => decide ((a :: b :: t2).getD i false ≠
          (a :: b :: t2).getD (i + 1) false)) ∘ Nat.succ) =
          (fun i => decide ((b :: t2).getD i false ≠
            (b :: t2).getD (i + 1) false)) := by
        funext i
        simp [Function.comp, List.getD_cons_succ]
      have hlen2 : (b :: t2).length - 1 = t2.length := by simp
      rw [hcomp]
      by_cases hab : a = b
      · subst hab
        have hp : (decide ((a :: a :: t2).getD 0 false ≠
            (a :: a :: t2).getD 1 false)) = false := by simp
        rw [if_neg (by simp), hp, if_neg (by simp), List.length_map, ih, hlen2]
        omega
      · have hp : (decide ((a :: b :: t2).getD 0 false ≠
            (a :: b :: t2).getD 1 false)) = true := by simp [hab]
        rw [if_pos (by simpa using hab), hp, if_pos rfl, List.length_cons,
          List.length_map, ih, hlen2]
        omega

theorem zcrQ_eq_fraction (l : List ℚ) (hl : 2 ≤ l.length) :
    zcrQ l = (((List.range (l.length - 1)).filter
      (fun i => signbitQ ((centeredQ l).getD i 0) ≠
        signbitQ ((centeredQ l).getD (i + 1) 0))).length : ℚ) /
      ((l.length : ℚ) - 1) := by
  have hceq : ∀ j, j < l.length →
      ((centeredQ l).map signbitQ).getD j false =
        signbitQ ((centeredQ l).getD j 0) := by
    intro j hj
    have hj1 : j < ((centeredQ l).map signbitQ).length := by simp [centeredQ, hj]
    have hj2 : j < (centeredQ l).length := by simp [centeredQ, hj]
    rw [List.getD_eq_getElem _ _ hj1, List.getD_eq_getElem _ _ hj2,
      List.getElem_map]
  have hlen : ((centeredQ l).map signbitQ).length - 1 = l.length - 1 := by
    simp [centeredQ]
  have hpred : ∀ i ∈ List.range (l.length - 1),
      (decide (((centeredQ l).map signbitQ).getD i false ≠
        ((centeredQ l).map signbitQ).getD (i + 1) false)) =
      (decide (signbitQ ((centeredQ l).getD i 0) ≠
        signbitQ ((centeredQ l).getD (i + 1) 0))) := by
    intro i hi
    rw [List.mem_range] at hi
    rw [hceq i (by omega), hceq (i + 1) (by omega)]
  rw [zcrQ, if_neg (by omega), countChanges_eq_filter, hlen,
    List.filter_congr hpred]

/-- Per-sample alternating-sign series `a, -a, a, -a, ...` of length `n`. -/
def altSeries (a : ℚ) (n : Nat) : List ℚ :=
  (List.range n).map (fun i => if i % 2 = 0 then a else -a)

theorem altSeries_sum (a : ℚ) (n : Nat) :
    (altSeries a n).sum = if n % 2 = 0 then 0 else a := by
  induction n with
  | zero => simp [altSeries]
  | succ m ih =>
    rw [altSeries, List.range_succ, List.map_append, List.sum_append]
    rw [altSeries] at ih
    rcases Nat.mod_two_eq_zero_or_one m with hm | hm
    · have hm1 : (m + 1) % 2 = 1 := by omega
      simp [ih, hm, hm1]
    · have hm1 : (m + 1) % 2 = 0 := by omega
      simp [ih, hm, hm1]

theorem getD_map_range {α : Type} (g : Nat → α) (n i : Nat) (hi : i < n)
    (d : α) : ((List.range n).map g).getD i d = g i := by
  have h1 : i < ((List.range n).map g).length := by simp [hi]
  rw [List.getD_eq_getElem _ _ h1, List.getElem_map, List.getElem_range]

theorem altSeries_mean_lt (a : ℚ) (n : Nat) (ha : 0 < a) (hn : 2 ≤ n) :
    0 ≤ meanQ (altSeries a n) ∧ meanQ (altSeries a n) < a := by
  have hlen : (altSeries a n).length = n := by simp [altSeries]
  rw [meanQ, altSeries_sum, hlen]
  have hn0 : (0 : ℚ) < (n : ℚ) := by
    have : (2 : ℚ) ≤ (n : ℚ) := by exact_mod_cast hn
    linarith
  rcases Nat.mod_two_eq_zero_or_one n with h | h
  · rw [if_pos h, zero_div]
    exact ⟨le_refl 0, ha⟩
  · rw [if_neg (by omega)]
    constructor
    · positivity
    · rw [div_lt_iff₀ hn0]
      have h2 : (2 : ℚ) ≤ (n : ℚ) := by exact_mod_cast hn
      nlinarith

theorem zcrQ_altSeries (a : ℚ) (n : Nat) (ha : 0 < a) (hn : 2 ≤ n) :
    zcrQ (altSeries a n) = 1 := by
  have hlen : (altSeries a n).length = n := by simp [altSeries]
  obtain ⟨hm0, hma⟩ := altSeries_mean_lt a n ha hn
  have hcent : centeredQ (altSeries a n) =
      (List.range n).map (fun i =>
        (if i % 2 = 0 then a else -a) - meanQ (altSeries a n)) := by
    rw [centeredQ, altSeries, List.map_map]
    rfl
  have hsign : ∀ i, i < n →
      signbitQ ((centeredQ (altSeries a n)).getD i 0) = decide (i % 2 = 1) := by
    intro i hi
    rw [hcent, getD_map_range _ n i hi]
    rcases Nat.mod_two_eq_zero_or_one i with h | h
    · rw [if_pos h, h]
      have : 0 < a - meanQ (altSeries a n) := by linarith
      simp [signbitQ]
      linarith
    · rw [if_neg (by omega), h]
      have : -a - meanQ (altSeries a n) < 0 := by linarith
      simp [signbitQ]
      linarith
  rw [zcrQ_eq_fraction _ (by omega), hlen]
  have hfilter : ((List.range (n - 1)).filter
      (fun i => signbitQ ((centeredQ (altSeries a n)).getD i 0) ≠
        signbitQ ((centeredQ (altSeries a n)).getD (i + 1) 0))) =
      List.range (n - 1) := by
    apply List.filter_eq_self.mpr
    intro i hi
    rw [List.mem_range] at hi
    rw [hsign i (by omega), hsign (i + 1) (by omega)]
    rcases Nat.mod_two_eq_zero_or_one i with h | h
    · have h1 : (i + 1) % 2 = 1 := by omega
      simp [h, h1]
    · have h1 : (i + 1) % 2 = 0 := by omega
      simp [h, h1]
  rw [hfilter, List.length_range]
  have hcast : ((n - 1 : ℕ) : ℚ) = (n : ℚ) - 1 := by
    have h1 : 1 ≤ n := by omega
    rw [Nat.cast_sub h1]
    norm_num
  rw [hcast]
  apply div_self
  have : (2 : ℚ) ≤ (n : ℚ) := by exact_mod_cast hn
  linarith

/-! ### Claim C8 -/

/-- C8: the zero-crossing-rate feature is `0.0` for fewer than 2 samples;
for `n ≥ 2` samples it equals the fraction, over the `n - 1` adjacent pairs,
of sign(-bit) changes in the mean-centred series; it is `0.0` whenever the
centred series has no sign change (in particular for any constant series);
and on an alternating-sign series `a, -a, a, -a, ...` (`a > 0`) it equals
`1.0` exactly. -/
theorem zero_crossing_rate_c8 :
    (∀ l : List ℚ, l.length < 2 → zcrQ l = 0) ∧
    (∀ l : List ℚ, 2 ≤ l.length →
      zcrQ l = (((List.range (l.length - 1)).filter
        (fun i => signbitQ ((centeredQ l).getD i 0) ≠
          signbitQ ((centeredQ l).getD (i + 1) 0))).length : ℚ) /
        ((l.length : ℚ) - 1)) ∧
    (∀ l : List ℚ,
      (∀ i, i + 1 < l.length →
        signbitQ ((centeredQ l).getD i 0) =
          signbitQ ((centeredQ l).getD (i + 1) 0)) → zcrQ l = 0) ∧
    (∀ (a : ℚ) (n : Nat), 0 < a → 2 ≤ n → zcrQ (altSeries a n) = 1) := by
  refine ⟨fun l hl => by rw [zcrQ, if_pos hl], zcrQ_eq_fraction, ?_,
    zcrQ_altSeries⟩
  intro l hnc
  by_cases hl : l.length < 2
  · rw [zcrQ, if_pos hl]
  · rw [zcrQ_eq_fraction l (by omega)]
    have hfilter : ((List.range (l.length - 1)).filter
        (fun i => signbitQ ((centeredQ l).getD i 0) ≠
          signbitQ ((centeredQ l).getD (i + 1) 0))) = [] := by
      apply List.filter_eq_nil_iff.mpr
      intro i hi
      rw [List.mem_range] at hi
      simp only [ne_eq, decide_not, Bool.not_eq_eq_eq_not, Bool.not_true,
        decide_eq_false_iff_not, Decidable.not_not]
      exact hnc i (by omega)
    rw [hfilter]
    simp

/-- Witness for C8: the short-series case at `[5]`, the no-change case at the
constant series `[3, 3, 3]`, and the alternating case at `1, -1, 1, -1`. -/
theorem zero_crossing_rate_c8_witness :
    zcrQ [(5 : ℚ)] = 0 ∧ zcrQ (altSeries 1 4) = 1 :=
  ⟨zero_crossing_rate_c8.1 [(5 : ℚ)] (by simp),
    zero_crossing_rate_c8.2.2.2 1 4 (by norm_num) (by norm_num)⟩

end RapidAid
